import Mathlib

/-!
Verification of `tensorpack/train.py` (training-loop orchestrator):
a shallow embedding of its configuration validation (`TrainConfig.__init__`),
gradient aggregation (`average_gradients`), gradient summarisation
(`summary_grads`), queue wiring and the epoch/step loop of `start_train`,
together with theorems settling the specification claims.
-/

namespace Tensorpack

/-! ## Training-loop model (`start_train`, lines 183-199)

The loop body is
```
for epoch in xrange(1, config.max_epoch):
    for step in tqdm.trange(config.step_per_epoch, ...):
        if coord.should_stop():
            return
        ... sess.run ...
        callbacks.trigger_step(...)
    callbacks.trigger_epoch()
```
We model it as a trace of events.  `should_stop` is modelled as an oracle
indexed by the number of step-boundary polls made so far (the coordinator
is external; the loop merely polls it once before every step). -/

/-- An observable event of the training loop: a step execution (tagged with
its epoch and with the index of the poll that guarded it), or a
`trigger_epoch` callback invocation. -/
inductive Event where
  | step (epoch : Nat) (pollIdx : Nat)
  | epochHook (epoch : Nat)
deriving DecidableEq, Repr

/-- Inner step loop for one epoch: runs up to `nSteps` steps.  Before each
step it polls `stop` at the current poll index; a positive poll makes
`start_train` return (`halted = true`).  Returns the events emitted, the
halted flag, and the next poll index. -/
def runSteps (stop : Nat → Bool) (epoch : Nat) (n : Nat) : Nat → List Event × Bool × Nat
  | 0 => ([], false, n)
  | Nat.succ k =>
    if stop n then ([], true, n)
    else
      let r := runSteps stop epoch (n + 1) k
      (Event.step epoch n :: r.1, r.2.1, r.2.2)

/-- Outer epoch loop over a list of epoch numbers; after a full inner loop
the `trigger_epoch` hook fires, but a `return` from the inner loop skips it
and ends the whole loop. -/
def runEpochs (stop : Nat → Bool) (nSteps : Nat) (n : Nat) : List Nat → List Event × Bool × Nat
  | [] => ([], false, n)
  | e :: es =>
    let r := runSteps stop e n nSteps
    if r.2.1 then r
    else
      let r2 := runEpochs stop nSteps r.2.2 es
      (r.1 ++ Event.epochHook e :: r2.1, r2.2.1, r2.2.2)

/-- The event trace of `start_train`'s loop: `xrange(1, max_epoch)` is the
half-open range of epochs `1, ..., max_epoch - 1`. -/
def trainTrace (stepPerEpoch maxEpoch : Nat) (stop : Nat → Bool) : List Event :=
  (runEpochs stop stepPerEpoch 0 (List.range' 1 (maxEpoch - 1))).1

/-- Number of executed steps in a trace. -/
def countSteps (t : List Event) : Nat :=
  t.countP (fun e => match e with | .step _ _ => true | _ => false)

/-- Number of `trigger_epoch` invocations in a trace. -/
def countEpochHooks (t : List Event) : Nat :=
  t.countP (fun e => match e with | .epochHook _ => true | _ => false)

theorem runSteps_no_stop (epoch n : Nat) : ∀ k,
    runSteps (fun _ => false) epoch n k =
      ((List.range' n k).map (Event.step epoch), false, n + k) := by
  intro k
  induction k generalizing n with
  | zero => simp [runSteps]
  | succ k ih =>
    simp [runSteps, ih (n + 1), List.range'_succ]
    omega

theorem runEpochs_no_stop (nSteps : Nat) : ∀ (es : List Nat) (n : Nat),
    countSteps (runEpochs (fun _ => false) nSteps n es).1 = es.length * nSteps ∧
    countEpochHooks (runEpochs (fun _ => false) nSteps n es).1 = es.length := by
  intro es
  induction es with
  | nil => intro n; simp [runEpochs, countSteps, countEpochHooks]
  | cons e es ih =>
    intro n
    have h1 := (ih (n + nSteps)).1
    have h2 := (ih (n + nSteps)).2
    simp [runEpochs, runSteps_no_stop, countSteps, countEpochHooks,
      List.countP_append, Function.comp_def] at *
    constructor
    · rw [h1]; ring
    · exact h2

/-- C1: with `steps_per_epoch = S` and `max_epoch = M` and no cancellation,
the loop executes exactly `S*(M-1)` steps (epochs `1..M-1`, half-open
range) and fires `trigger_epoch` exactly `M-1` times. -/
theorem steps_and_hooks_count (S M : Nat) :
    countSteps (trainTrace S M (fun _ => false)) = S * (M - 1) ∧
    countEpochHooks (trainTrace S M (fun _ => false)) = M - 1 := by
  have h := runEpochs_no_stop S (List.range' 1 (M - 1)) 0
  simpa [trainTrace, Nat.mul_comm] using h

/-- Number of step events in a trace whose guarding poll index is `≥ k`. -/
def countStepsFrom (k : Nat) (t : List Event) : Nat :=
  t.countP (fun e => match e with | .step _ n => decide (k ≤ n) | _ => false)

theorem runSteps_mem_stop_false (stop : Nat → Bool) (e : Nat) :
    ∀ k n e' n', Event.step e' n' ∈ (runSteps stop e n k).1 → stop n' = false := by
  intro k
  induction k with
  | zero => intro n e' n' h; simp [runSteps] at h
  | succ k ih =>
    intro n e' n' h
    by_cases hs : stop n
    · simp [runSteps, hs] at h
    · simp only [runSteps, hs, if_neg, Bool.false_eq_true, not_false_eq_true,
        if_false, List.mem_cons] at h
      rcases h with h | h
      · cases h; simpa using hs
      · exact ih (n + 1) e' n' h

theorem runEpochs_mem_stop_false (stop : Nat → Bool) (S : Nat) :
    ∀ (es : List Nat), ∀ n e' n', Event.step e' n' ∈ (runEpochs stop S n es).1 →
      stop n' = false := by
  intro es
  induction es with
  | nil => intro n e' n' h; simp [runEpochs] at h
  | cons e es ih =>
    intro n e' n' h
    simp only [runEpochs] at h
    by_cases hh : (runSteps stop e n S).2.1
    · rw [if_pos hh] at h
      exact runSteps_mem_stop_false stop e S n e' n' h
    · rw [if_neg hh] at h
      simp only [List.mem_append, List.mem_cons] at h
      rcases h with h | h | h
      · exact runSteps_mem_stop_false stop e S n e' n' h
      · cases h
      · exact ih _ e' n' h

/-- C6: once the coordinator signals stop (the signal is monotone: once
requested it stays requested), no further step executes: the loop polls
before each `sess.run` and every executed step's poll returned false, so no
step guarded by a poll at or after the stop point appears in the trace. -/
theorem no_step_after_cancellation (S M k : Nat) (stop : Nat → Bool)
    (hmono : ∀ a b, a ≤ b → stop a = true → stop b = true)
    (hk : stop k = true) :
    countStepsFrom k (trainTrace S M stop) = 0 := by
  rw [countStepsFrom, List.countP_eq_zero]
  intro ev hev
  cases ev with
  | epochHook e => simp
  | step e' n' =>
    have hfalse := runEpochs_mem_stop_false stop S (List.range' 1 (M - 1)) 0 e' n' hev
    simp only [decide_eq_true_eq]
    intro hkn
    rw [hmono k n' hkn hk] at hfalse
    cases hfalse

/-- Witness for `no_step_after_cancellation`: a token that requests stop at
poll 3 leaves no step with poll index `≥ 3` in the trace. -/
theorem no_step_after_cancellation_witness :
    countStepsFrom 3 (trainTrace 2 3 (fun n => decide (3 ≤ n))) = 0 :=
  no_step_after_cancellation 2 3 3 (fun n => decide (3 ≤ n))
    (fun a b hab ha => by simp only [decide_eq_true_eq] at *; omega)
    (by decide)

/-! ## Gradient aggregation (`average_gradients`, lines 77-100)

Gradient tensors are embedded as flat vectors of rationals; a gradient
entry is `Option TensorQ × Var` mirroring TensorFlow's `(grad, var)` pairs
where `grad` is `None` when the loss does not depend on the variable.
TensorFlow operations that reject `None` inputs are embedded as `Except`:
`tf.expand_dims(None, 0)` raises (`convert_to_tensor(None)` is an error). -/

/-- A numeric tensor, flattened to a vector of rationals. -/
abbrev TensorQ := List ℚ

/-- Opaque identity of a trainable variable. -/
abbrev Var := Nat

/-- One `(gradient, variable)` pair as produced by
`optimizer.compute_gradients`; the gradient is absent when the loss does
not depend on the variable. -/
abbrev GradPair := Option TensorQ × Var

/-- Errors raised by the embedded TensorFlow operations. -/
inductive TfError where
  | noneValue
  | emptyInput
deriving DecidableEq, Repr

/-- Model of `tf.expand_dims(g, 0)`: adds a leading axis of size one, so a
tensor becomes a one-element stack; a `None` gradient is rejected
(`convert_to_tensor(None)` raises `ValueError`). -/
def tf_expand_dims0 : Option TensorQ → Except TfError (List TensorQ)
  | none => .error .noneValue
  | some t => .ok [t]

/-- Model of `tf.concat(0, grads)` on stacks: concatenation along the
leading axis. -/
def tf_concat0 (grads : List (List TensorQ)) : List TensorQ :=
  grads.flatten

/-- Elementwise sum of two tensors of equal shape. -/
def addT (a b : TensorQ) : TensorQ :=
  List.zipWith (· + ·) a b

/-- Model of `tf.reduce_mean(grad, 0)` on a stack: elementwise mean over
the leading axis; the empty stack is rejected. -/
def tf_reduce_mean0 : List TensorQ → Except TfError TensorQ
  | [] => .error .emptyInput
  | t :: ts => .ok ((ts.foldl addT t).map (fun x => x / ((ts.length + 1 : Nat) : ℚ)))

/-- Worker for `zipStar`: emits one row of heads per step while every list
is nonempty; the fuel is the first list's length, which bounds the number
of rows (each step shortens every list by one). -/
def zipStarGo {α : Type} [Inhabited α] : Nat → List (List α) → List (List α)
  | 0, _ => []
  | Nat.succ fuel, ls =>
    if ls.all (fun l => !l.isEmpty) then
      (ls.map (fun l => l.headI)) :: zipStarGo fuel (ls.map List.tail)
    else []

/-- Model of Python's `zip(*lists)`: truncates to the shortest list; rows
are the tuples of heads. -/
def zipStar {α : Type} [Inhabited α] : List (List α) → List (List α)
  | [] => []
  | l0 :: rest => zipStarGo l0.length (l0 :: rest)

/-- Unfolding equation of `zipStar` on a nonempty list of lists. -/
theorem zipStar_cons {α : Type} [Inhabited α] (l0 : List α) (rest : List (List α)) :
    zipStar (l0 :: rest) =
      if (l0 :: rest).all (fun l => !l.isEmpty) then
        ((l0 :: rest).map (fun l => l.headI)) :: zipStar ((l0 :: rest).map List.tail)
      else [] := by
  cases l0 with
  | nil => rfl
  | cons a l => rfl

/-- Embedding of `average_gradients(tower_grads)` (lines 77-100): for each
position of `zip(*tower_grads)`, expand each tower's gradient with a
leading axis, concatenate, take the elementwise mean, and pair it with the
first tower's variable. -/
def average_gradients (tower_grads : List (List GradPair)) :
    Except TfError (List GradPair) :=
  (zipStar tower_grads).mapM (fun grad_and_vars => do
    let grads ← grad_and_vars.mapM (fun gv => tf_expand_dims0 gv.1)
    let grad := tf_concat0 grads
    let grad ← tf_reduce_mean0 grad
    match grad_and_vars with
    | [] => Except.error TfError.emptyInput
    | gv0 :: _ => Except.ok (some grad, gv0.2))

/-- Embedding of `summary_grads(grads)` (lines 102-105): the histogram
summaries emitted, one per gradient entry whose gradient is present
(`if grad:` skips `None`; a TF 0.x `Tensor` object is always truthy). -/
def summary_grads (grads : List GradPair) : List (Var × TensorQ) :=
  grads.filterMap (fun gv => match gv.1 with
    | some g => some (gv.2, g)
    | none => none)

/-- Spec-side arithmetic mean of a list of tensors of shape `d`:
`(g_1 + ... + g_N) / N`, elementwise, with the empty sum the zero tensor. -/
def specMeanT (d : Nat) (ts : List TensorQ) : TensorQ :=
  (ts.foldr addT (List.replicate d 0)).map (fun x => x / (ts.length : ℚ))

theorem addT_assoc (a : TensorQ) : ∀ b c, addT (addT a b) c = addT a (addT b c) := by
  induction a with
  | nil => intro b c; simp [addT]
  | cons x a ih =>
    intro b c
    cases b with
    | nil => simp [addT]
    | cons y b =>
      cases c with
      | nil => simp [addT]
      | cons z c =>
        have h := ih b c
        simp only [addT] at h ⊢
        simp [h, add_assoc]

theorem addT_length (a b : TensorQ) : (addT a b).length = min a.length b.length := by
  simp [addT]

theorem addT_replicate_zero (a : TensorQ) : ∀ d, a.length = d →
    addT a (List.replicate d 0) = a := by
  induction a with
  | nil => intro d _; simp [addT]
  | cons x a ih =>
    intro d hd
    cases d with
    | zero => simp at hd
    | succ d =>
      simp only [List.replicate_succ, addT, List.zipWith_cons_cons, add_zero]
      have := ih d (by simpa using hd)
      simp only [addT] at this
      rw [this]

theorem foldl_addT_eq (d : Nat) :
    ∀ (ts : List TensorQ) (acc : TensorQ), acc.length = d → (∀ t ∈ ts, t.length = d) →
    ts.foldl addT acc = addT acc (ts.foldr addT (List.replicate d 0)) := by
  intro ts
  induction ts with
  | nil => intro acc hacc _; simp [List.foldl, List.foldr, addT_replicate_zero acc d hacc]
  | cons t ts ih =>
    intro acc hacc hts
    have ht : t.length = d := hts t (by simp)
    have hlen : (addT acc t).length = d := by
      rw [addT_length, hacc, ht]; simp
    simp only [List.foldl_cons, List.foldr_cons]
    rw [ih (addT acc t) hlen (fun u hu => hts u (by simp [hu])), addT_assoc]

theorem list_getD_zero_eq_headI {α : Type} [Inhabited α] (l : List α) :
    l.getD 0 default = l.headI := by
  cases l <;> simp

theorem headI_eq_getElem_zero {α : Type} [Inhabited α] (l : List α) :
    l.headI = (l[0]?).getD default := by
  cases l <;> simp

theorem list_getD_succ_eq_tail {α : Type} [Inhabited α] (l : List α) (i : Nat) :
    l.getD (i + 1) default = l.tail.getD i default := by
  cases l <;> simp

/-- Rows of `zip(*tg)` for equal-length towers: row `i` collects each
tower's `i`-th entry. -/
theorem zipStar_eq_rows {α : Type} [Inhabited α] :
    ∀ (L : Nat) (tg : List (List α)), tg ≠ [] → (∀ l ∈ tg, l.length = L) →
    zipStar tg = (List.range L).map (fun i => tg.map (fun l => l.getD i default)) := by
  intro L
  induction L with
  | zero =>
    intro tg hne hlen
    match tg with
    | [] => exact absurd rfl hne
    | l0 :: rest =>
      have h0 : l0 = [] := List.length_eq_zero.mp (hlen l0 (by simp))
      subst h0
      simp [zipStar, zipStarGo]
  | succ L ih =>
    intro tg hne hlen
    match tg with
    | [] => exact absurd rfl hne
    | l0 :: rest =>
      have hcond : (l0 :: rest).all (fun l => !l.isEmpty) = true := by
        rw [List.all_eq_true]
        intro l hl
        have := hlen l hl
        cases l with
        | nil => simp at this
        | cons a l' => simp
      rw [zipStar_cons, if_pos hcond]
      have htail : zipStar ((l0 :: rest).map List.tail) =
          (List.range L).map (fun i => ((l0 :: rest).map List.tail).map
            (fun l => l.getD i default)) := by
        refine ih ((l0 :: rest).map List.tail) (by simp) ?_
        intro l hl
        rw [List.mem_map] at hl
        obtain ⟨l', hl', rfl⟩ := hl
        have := hlen l' hl'
        simp [List.length_tail, this]
      rw [htail, List.range_succ_eq_map]
      simp only [List.map_cons, List.map_map]
      congr 1
      · simp [headI_eq_getElem_zero]
      · simp [Function.comp_def, list_getD_succ_eq_tail]

theorem except_mapM_ok {ε α β : Type} (f : α → Except ε β) (g : α → β) :
    ∀ (xs : List α), (∀ x ∈ xs, f x = .ok (g x)) → xs.mapM f = .ok (xs.map g) := by
  intro xs
  induction xs with
  | nil => intro _; rfl
  | cons x xs ih =>
    intro h
    rw [List.mapM_cons, h x (by simp), ih (fun u hu => h u (by simp [hu]))]
    rfl

theorem flatten_map_singleton {α β : Type} (g : α → β) (xs : List α) :
    (xs.map (fun x => [g x])).flatten = xs.map g := by
  induction xs with
  | nil => rfl
  | cons x xs ih => simp [ih]

theorem average_row (row : List GradPair) (d : Nat) (hrne : row ≠ [])
    (hpres : ∀ gv ∈ row, gv.1.isSome = true ∧ gv.1.iget.length = d) :
    (fun grad_and_vars => do
      let grads ← grad_and_vars.mapM (fun gv => tf_expand_dims0 gv.1)
      let grad := tf_concat0 grads
      let grad ← tf_reduce_mean0 grad
      match grad_and_vars with
      | [] => Except.error TfError.emptyInput
      | gv0 :: _ => Except.ok ((some grad : Option TensorQ), gv0.2)) row =
    Except.ok (some (specMeanT d (row.map (fun gv => gv.1.iget))), row.headI.2) := by
  cases row with
  | nil => exact absurd rfl hrne
  | cons gv0 rest =>
    have hmapM : (gv0 :: rest).mapM (fun gv => tf_expand_dims0 gv.1) =
        .ok ((gv0 :: rest).map (fun gv => [gv.1.iget])) := by
      refine except_mapM_ok _ _ (gv0 :: rest) (fun gv hgv => ?_)
      obtain ⟨hs, _⟩ := hpres gv hgv
      cases h : gv.1 with
      | none => rw [h] at hs; cases hs
      | some t => rfl
    show Except.bind ((gv0 :: rest).mapM (fun gv => tf_expand_dims0 gv.1))
      (fun grads => Except.bind (tf_reduce_mean0 (tf_concat0 grads))
        (fun grad => Except.ok ((some grad : Option TensorQ), gv0.2))) = _
    rw [hmapM]
    show Except.bind
      (tf_reduce_mean0 (tf_concat0 ((gv0 :: rest).map (fun gv => [gv.1.iget]))))
      (fun grad => Except.ok ((some grad : Option TensorQ), gv0.2)) = _
    have hconcat : tf_concat0 ((gv0 :: rest).map (fun gv => [gv.1.iget])) =
        gv0.1.iget :: rest.map (fun gv => gv.1.iget) := by
      simp only [tf_concat0]
      rw [flatten_map_singleton]
      simp
    rw [hconcat]
    have hfold := foldl_addT_eq d (rest.map (fun gv => gv.1.iget)) gv0.1.iget
      (hpres gv0 (by simp)).2
      (by
        intro t ht
        rw [List.mem_map] at ht
        obtain ⟨gv, hgv, rfl⟩ := ht
        exact (hpres gv (by simp [hgv])).2)
    simp only [tf_reduce_mean0, hfold, Except.bind]
    congr 2

/-- C2: aggregating N equal-length per-tower gradient sets with all
gradients present (tensors of a common shape `d`) yields a gradient set of
the same length whose `i`-th entry pairs the elementwise arithmetic mean
`(g_1 + ... + g_N) / N` of the towers' `i`-th gradients with the variable
reference taken from tower 0 at position `i`. -/
theorem average_gradients_spec (tg : List (List GradPair)) (L d : Nat)
    (hne : tg ≠ []) (hlen : ∀ l ∈ tg, l.length = L)
    (hpres : ∀ l ∈ tg, ∀ gv ∈ l, gv.1.isSome = true ∧ gv.1.iget.length = d) :
    average_gradients tg = .ok ((List.range L).map (fun i =>
      (some (specMeanT d (tg.map (fun l => (l.getD i default).1.iget))),
       (tg.headI.getD i default).2))) := by
  rw [average_gradients, zipStar_eq_rows L tg hne hlen]
  refine (except_mapM_ok _
      (fun row => (some (specMeanT d (row.map (fun gv => gv.1.iget))), row.headI.2))
      _ ?_).trans ?_
  · intro row hrow
    rw [List.mem_map] at hrow
    obtain ⟨i, hi, rfl⟩ := hrow
    refine average_row _ d ?_ ?_
    · simpa using hne
    intro gv hgv
    rw [List.mem_map] at hgv
    obtain ⟨l, hl, rfl⟩ := hgv
    have hil : i < l.length := by rw [hlen l hl]; simpa using hi
    have hmem : l.getD i default ∈ l := by
      rw [List.getD_eq_getElem l default hil]
      exact List.getElem_mem hil
    exact hpres l hl _ hmem
  · congr 1
    rw [List.map_map]
    refine List.map_congr_left (fun i _ => ?_)
    simp only [Function.comp_apply]
    congr 2
    · rw [List.map_map]
      rfl
    · cases tg with
      | nil => exact absurd rfl hne
      | cons a t => simp

/-- Witness for `average_gradients_spec`: two towers, two variables,
tensors of shape 2; the aggregate is the elementwise mean paired with
tower 0's variables. -/
theorem average_gradients_spec_witness :
    average_gradients
        [[(some [2, 4], 7), (some [0, 2], 9)], [(some [4, 8], 7), (some [2, 4], 9)]] =
      .ok [(some [3, 6], 7), (some [1, 3], 9)] :=
  (average_gradients_spec
      [[(some [2, 4], 7), (some [0, 2], 9)], [(some [4, 8], 7), (some [2, 4], 9)]]
      2 2 (by decide) (by decide) (by decide)).trans
    (by
      simp only [Except.ok.injEq]
      simp [specMeanT, addT, List.range_succ, Option.iget_some, List.zipWith]
      norm_num)

/-! ## Tower construction and collection deduplication (lines 135-165)

The TensorFlow graph-level state that `start_train`'s gradient section
reads and mutates: the named global collections (`tf.get_collection`) and
the variable scope's reuse flag.  Building tower `i`'s model
(`get_model_func` under `tower{i}`) appends entries (opaque `Nat` ids) to
collections, described by an oracle `adds i k`; the gradients the
optimizer computes for tower `i` are an oracle `towerGrads i`. -/

/-- TensorFlow graph state touched by the tower loop. -/
structure GraphState where
  collections : String → List Nat
  reuse : Bool

/-- Key of `tf.GraphKeys.SUMMARIES`. -/
def SUMMARIES_KEY : String := "summaries"

/-- Key of the moving-summary collection. -/
def MOVING_SUMMARY_VARS_KEY : String := "MOVING_SUMMARY_VARS"

/-- Embedding of `coll_keys` (line 138). -/
def coll_keys : List String := [SUMMARIES_KEY, MOVING_SUMMARY_VARS_KEY]

/-- The tower loop (lines 141-152): builds each tower's model (appending
`adds i` to the collections), recording the reuse flag each tower is built
under; after tower 0 it calls `reuse_variables()` and snapshots the
`coll_keys` collections into `kept_summaries`.  Returns the final state,
the per-tower `(index, reuse-flag-at-build)` trace, and the snapshot. -/
def buildTowersLoop (adds : Nat → String → List Nat) :
    List Nat → GraphState → GraphState × List (Nat × Bool) × Option (String → List Nat)
  | [], st => (st, [], none)
  | i :: rest, st =>
    let seen := st.reuse
    let stA : GraphState := { st with collections := fun k => st.collections k ++ adds i k }
    let stB := if i = 0 then { stA with reuse := true } else stA
    let keptHere : Option (String → List Nat) := if i = 0 then some stA.collections else none
    let r := buildTowersLoop adds rest stB
    (r.1, (i, seen) :: r.2.1, keptHere.orElse (fun _ => r.2.2))

/-- Embedding of the gradient section of `start_train` (lines 137-160): in
the multi-tower branch it runs the tower loop over `range(nr_tower)`,
resets the `coll_keys` collections to the tower-0 snapshot, and averages
the per-tower gradients; in the single-tower branch it builds one model
and takes `compute_gradients` output directly. -/
def build_gradients (nr_tower : Int) (adds : Nat → String → List Nat)
    (towerGrads : Nat → List GradPair) (st : GraphState) :
    GraphState × List (Nat × Bool) × Except TfError (List GradPair) :=
  if nr_tower > 1 then
    let r := buildTowersLoop adds (List.range nr_tower.toNat) st
    match r.2.2 with
    | none => (r.1, r.2.1, .error .emptyInput)
    | some kept =>
      ({ r.1 with collections := fun k => if k ∈ coll_keys then kept k else r.1.collections k },
       r.2.1,
       average_gradients ((List.range nr_tower.toNat).map towerGrads))
  else
    ({ st with collections := fun k => st.collections k ++ adds 0 k },
     [(0, st.reuse)],
     .ok (towerGrads 0))

/-- C3: with `nr_tower == 1` gradient aggregation is the identity: the
else-branch passes the single tower's gradient set to the apply step
unchanged, runs no tower loop, performs no averaging or stacking, leaves
every collection untouched by deduplication (only the single model build
appends to it) and never enables variable reuse. -/
theorem single_tower_identity (adds : Nat → String → List Nat)
    (towerGrads : Nat → List GradPair) (st : GraphState) (k : String) :
    (build_gradients 1 adds towerGrads st).2.2 = .ok (towerGrads 0) ∧
    (build_gradients 1 adds towerGrads st).1.collections k =
      st.collections k ++ adds 0 k ∧
    (build_gradients 1 adds towerGrads st).1.reuse = st.reuse ∧
    (build_gradients 1 adds towerGrads st).2.1 = [(0, st.reuse)] := by
  simp [build_gradients]

theorem buildTowersLoop_no_zero (adds : Nat → String → List Nat) :
    ∀ (idxs : List Nat) (st : GraphState), (∀ i ∈ idxs, i ≠ 0) →
    (buildTowersLoop adds idxs st).1.reuse = st.reuse ∧
    (buildTowersLoop adds idxs st).2.1 = idxs.map (fun i => (i, st.reuse)) ∧
    (buildTowersLoop adds idxs st).2.2 = none ∧
    (∀ k, (buildTowersLoop adds idxs st).1.collections k =
      st.collections k ++ (idxs.map (fun i => adds i k)).flatten) := by
  intro idxs
  induction idxs with
  | nil => intro st _; simp [buildTowersLoop]
  | cons i rest ih =>
    intro st h
    have hi : i ≠ 0 := h i (by simp)
    have hrec := ih { st with collections := fun k => st.collections k ++ adds i k }
      (fun j hj => h j (by simp [hj]))
    simp only [buildTowersLoop, if_neg hi] at hrec ⊢
    refine ⟨hrec.1, ?_, ?_, ?_⟩
    · rw [List.map_cons]
      exact congrArg _ hrec.2.1
    · simpa [Option.orElse] using hrec.2.2.1
    · intro k
      rw [hrec.2.2.2 k]
      simp

theorem buildTowersLoop_zero_cons (adds : Nat → String → List Nat)
    (rest : List Nat) (st : GraphState) :
    buildTowersLoop adds (0 :: rest) st =
      ((buildTowersLoop adds rest
          { collections := fun k => st.collections k ++ adds 0 k, reuse := true }).1,
       (0, st.reuse) :: (buildTowersLoop adds rest
          { collections := fun k => st.collections k ++ adds 0 k, reuse := true }).2.1,
       some (fun k => st.collections k ++ adds 0 k)) := by
  simp [buildTowersLoop, Option.orElse]

/-- C9: in the multi-tower branch (starting with reuse disabled), tower 0
is built without variable reuse and every later tower with reuse enabled;
after all towers are built the summary and moving-summary collections hold
exactly the entries captured after tower 0's construction (later towers'
additions are discarded), while every other collection keeps all towers'
additions — the deduplication touches nothing else. -/
theorem multi_tower_dedup (N : Int) (adds : Nat → String → List Nat)
    (towerGrads : Nat → List GradPair) (st : GraphState)
    (hN : N > 1) (hreuse : st.reuse = false) (k1 k2 : String)
    (hk1 : k1 ∈ coll_keys) (hk2 : k2 ∉ coll_keys) :
    (build_gradients N adds towerGrads st).2.1 =
      (0, false) :: (List.range' 1 (N.toNat - 1)).map (fun i => (i, true)) ∧
    (build_gradients N adds towerGrads st).1.collections k1 =
      st.collections k1 ++ adds 0 k1 ∧
    (build_gradients N adds towerGrads st).1.collections k2 =
      st.collections k2 ++ ((List.range N.toNat).map (fun i => adds i k2)).flatten := by
  have hNt : N.toNat = (N.toNat - 1) + 1 := by omega
  have hrange : List.range N.toNat = 0 :: List.range' 1 (N.toNat - 1) := by
    rw [List.range_eq_range', hNt, List.range'_succ]
    simp
  have hnz : ∀ i ∈ List.range' 1 (N.toNat - 1), i ≠ 0 := by
    intro i hmem
    rw [List.mem_range'_1] at hmem
    omega
  have hloop := buildTowersLoop_no_zero adds (List.range' 1 (N.toNat - 1))
    { collections := fun k => st.collections k ++ adds 0 k, reuse := true }
    hnz
  rw [build_gradients, if_pos hN, hrange, buildTowersLoop_zero_cons]
  simp only []
  refine ⟨?_, ?_, ?_⟩
  · rw [hreuse, hloop.2.1]
  · rw [if_pos hk1]
  · rw [if_neg hk2, hloop.2.2.2 k2]
    simp

/-- Witness for `multi_tower_dedup` at two towers: tower `i`'s build adds
entry `i` to every collection; the summary collection keeps only tower 0's
entry while an ordinary collection keeps both. -/
theorem multi_tower_dedup_witness :
    (build_gradients 2 (fun i _ => [i]) (fun _ => []) ⟨fun _ => [], false⟩).2.1 =
      [(0, false), (1, true)] ∧
    (build_gradients 2 (fun i _ => [i]) (fun _ => []) ⟨fun _ => [], false⟩).1.collections
      SUMMARIES_KEY = [0] ∧
    (build_gradients 2 (fun i _ => [i]) (fun _ => []) ⟨fun _ => [], false⟩).1.collections
      "weights" = [0, 1] :=
  multi_tower_dedup 2 (fun i _ => [i]) (fun _ => []) ⟨fun _ => [], false⟩
    (by decide) rfl SUMMARIES_KEY "weights" (by decide) (by decide)

theorem filterMap_eraseIdx_of_none {α β : Type} (f : α → Option β) :
    ∀ (l : List α) (i : Nat) (hi : i < l.length), f (l.get ⟨i, hi⟩) = none →
    l.filterMap f = (l.eraseIdx i).filterMap f := by
  intro l
  induction l with
  | nil => intro i hi; simp at hi
  | cons a l ih =>
    intro i hi hf
    cases i with
    | zero =>
      simp only [List.get] at hf
      simp [List.eraseIdx, List.filterMap_cons, hf]
    | succ i =>
      simp only [List.get] at hf
      have hi' : i < l.length := by simpa using hi
      simp only [List.eraseIdx, List.filterMap_cons]
      cases f a <;> simp [ih i hi' hf]

/-- C4 counterexample: with two towers and the gradient for the second
variable absent in tower 0, multi-tower aggregation raises
(`tf.expand_dims(None, 0)` rejects `None`); the absent entry is not
carried through to the apply step on this path. -/
theorem absent_gradient_multi_tower_fails :
    average_gradients [[(some [1], 7), (none, 9)], [(some [3], 7), (some [5], 9)]] =
      .error TfError.noneValue := by
  rfl

/-- C4 amended: a gradient entry that is absent is skipped by
`summary_grads` (summarising is unchanged by erasing that entry) and, in
the single-tower path, the whole gradient set — the absent entry
included — reaches the apply step unmodified. -/
theorem absent_gradient_single_tower (grads : List GradPair) (i : Nat)
    (hi : i < grads.length) (habs : (grads.get ⟨i, hi⟩).1 = none)
    (adds : Nat → String → List Nat) (st : GraphState) :
    summary_grads grads = summary_grads (grads.eraseIdx i) ∧
    (build_gradients 1 adds (fun _ => grads) st).2.2 = .ok grads := by
  constructor
  · rw [summary_grads, summary_grads]
    refine filterMap_eraseIdx_of_none _ grads i hi ?_
    rw [habs]
  · simp [build_gradients]

/-- Witness for `absent_gradient_single_tower`: variable 9's gradient is
absent; `summary_grads` emits only variable 7's histogram and the apply
step still receives both entries. -/
theorem absent_gradient_single_tower_witness :
    summary_grads [((some [1] : Option TensorQ), (7 : Var)), (none, 9)] =
      summary_grads ([((some [1] : Option TensorQ), (7 : Var)), (none, 9)].eraseIdx 1) ∧
    (build_gradients 1 (fun _ _ => []) (fun _ => [(some [1], 7), (none, 9)])
      ⟨fun _ => [], false⟩).2.2 = .ok [(some [1], 7), (none, 9)] :=
  absent_gradient_single_tower [(some [1], 7), (none, 9)] 1 (by decide) rfl
    (fun _ _ => []) ⟨fun _ => [], false⟩

/-! ## Configuration validation (`TrainConfig.__init__`, lines 51-75)

The constructor pops known keyword arguments in source order and checks
them with asserts.  Arguments whose values only pass an `isinstance`
check and are stored opaquely (optimizer, session_config, session_init)
always succeed and are erased from the model; the required opaque
arguments (`callbacks`, `get_model_func`) are kept as presence flags
because a missing one raises `KeyError`. -/

/-- A declared input variable: dtype (opaque id) and static shape. -/
structure InputVar where
  dtype : Nat
  shape : List Nat
deriving DecidableEq, Repr

/-- An input queue as far as the constructor inspects it: its capacity and
its element dtypes (a `tf.FIFOQueue(5, dtypes)` when defaulted). -/
structure QueueSpec where
  capacity : Nat
  dtypes : List Nat
deriving DecidableEq, Repr

/-- The keyword-argument dictionary passed to `TrainConfig.__init__`:
known keys are present or absent; `unknown` holds the remaining keys. -/
structure KwArgs where
  dataset : Option Int
  callbacks : Bool
  inputs : Option (List InputVar)
  input_queue : Option QueueSpec
  get_model_func : Bool
  batched_model_input : Option Bool
  step_per_epoch : Option Int
  max_epoch : Option Int
  nr_tower : Option Int
  unknown : List String
deriving DecidableEq, Repr

/-- Errors `TrainConfig.__init__` can raise. -/
inductive InitError where
  | keyError (key : String)
  | assertionError
  | unknownArguments (keys : List String)
deriving DecidableEq, Repr

/-- The fields a successfully constructed `TrainConfig` carries (the
opaque ones erased). -/
structure TrainConfig where
  dataset_size : Int
  inputs : List InputVar
  input_queue : QueueSpec
  batched_model_input : Bool
  step_per_epoch : Int
  max_epoch : Int
  nr_tower : Int
deriving DecidableEq, Repr

/-- Embedding of `TrainConfig.__init__` (lines 51-75), in source order:
required pops raise `KeyError` when absent; the input queue defaults to a
FIFO queue of capacity 5 over the inputs' dtypes and its dtypes are
asserted to match; `step_per_epoch` defaults to `dataset.size()`,
`max_epoch` to 100, both asserted positive; `nr_tower` defaults to 1 and
is never validated; leftover keys raise. -/
def TrainConfig.init (kw : KwArgs) : Except InitError TrainConfig :=
  match kw.dataset with
  | none => .error (.keyError "dataset")
  | some dataset_size =>
    if kw.callbacks = false then .error (.keyError "callbacks") else
    match kw.inputs with
    | none => .error (.keyError "inputs")
    | some inputs =>
      let input_queue := kw.input_queue.getD ⟨5, inputs.map (fun v => v.dtype)⟩
      if input_queue.dtypes ≠ inputs.map (fun v => v.dtype) then .error .assertionError else
      if kw.get_model_func = false then .error (.keyError "get_model_func") else
      let batched_model_input := kw.batched_model_input.getD true
      let step_per_epoch := kw.step_per_epoch.getD dataset_size
      let max_epoch := kw.max_epoch.getD 100
      if ¬(step_per_epoch > 0 ∧ max_epoch > 0) then .error .assertionError else
      let nr_tower := kw.nr_tower.getD 1
      if kw.unknown ≠ [] then .error (.unknownArguments kw.unknown) else
      .ok ⟨dataset_size, inputs, input_queue, batched_model_input,
           step_per_epoch, max_epoch, nr_tower⟩

/-- C10: every successful construction leaves the queue's dtypes equal to
the input variables' dtypes in order (a mismatched supplied queue can
therefore never construct), and when no queue is supplied the config holds
a capacity-5 FIFO queue over exactly those dtypes. -/
theorem input_queue_validation (kw : KwArgs) (cfg : TrainConfig)
    (hok : TrainConfig.init kw = .ok cfg) :
    cfg.input_queue.dtypes = cfg.inputs.map (fun v => v.dtype) ∧
    (kw.input_queue = none →
      cfg.input_queue = ⟨5, cfg.inputs.map (fun v => v.dtype)⟩) := by
  unfold TrainConfig.init at hok
  simp only [ne_eq] at hok
  repeat' split at hok
  any_goals cases hok
  simp_all

/-- Witness for `input_queue_validation` at a concrete kwargs set with no
supplied queue. -/
theorem input_queue_validation_witness :
    (⟨10, [⟨3, [4, 2]⟩], ⟨5, [3]⟩, true, 5, 3, 1⟩ : TrainConfig).input_queue.dtypes =
      ([⟨3, [4, 2]⟩] : List InputVar).map (fun v => v.dtype) ∧
    ((⟨some 10, true, some [⟨3, [4, 2]⟩], none, true, none, some 5, some 3, some 1, []⟩ :
        KwArgs).input_queue = none →
      (⟨10, [⟨3, [4, 2]⟩], ⟨5, [3]⟩, true, 5, 3, 1⟩ : TrainConfig).input_queue =
        ⟨5, ([⟨3, [4, 2]⟩] : List InputVar).map (fun v => v.dtype)⟩) :=
  input_queue_validation
    ⟨some 10, true, some [⟨3, [4, 2]⟩], none, true, none, some 5, some 3, some 1, []⟩
    ⟨10, [⟨3, [4, 2]⟩], ⟨5, [3]⟩, true, 5, 3, 1⟩ rfl

/-- C5 counterexample: a kwargs set with `nr_tower = 0` constructs
successfully — `TrainConfig.__init__` stores `nr_tower` without any check,
so construction does not raise on `tower_count < 1` and the claimed
invariant `tower_count ≥ 1` fails for this successfully built config. -/
theorem nr_tower_not_validated :
    TrainConfig.init
        ⟨some 10, true, some [⟨3, [4]⟩], none, true, none, some 5, some 3, some 0, []⟩ =
      .ok ⟨10, [⟨3, [4]⟩], ⟨5, [3]⟩, true, 5, 3, 0⟩ ∧
    ¬((1 : Int) ≤ (⟨10, [⟨3, [4]⟩], ⟨5, [3]⟩, true, 5, 3, 0⟩ : TrainConfig).nr_tower) :=
  ⟨rfl, by decide⟩

/-- C5 amended: construction fails when `step_per_epoch ≤ 0`, when
`max_epoch ≤ 0` or when unknown arguments are supplied — every
successfully constructed config satisfies `step_per_epoch > 0` and
`max_epoch > 0` with no argument left over — but `nr_tower` is stored
unvalidated (whatever was supplied, default 1), so `tower_count ≥ 1` is
not an invariant established by construction. -/
theorem config_validation (kw : KwArgs) (cfg : TrainConfig)
    (hok : TrainConfig.init kw = .ok cfg) :
    cfg.step_per_epoch > 0 ∧ cfg.max_epoch > 0 ∧ kw.unknown = [] ∧
    cfg.nr_tower = kw.nr_tower.getD 1 := by
  unfold TrainConfig.init at hok
  simp only [ne_eq] at hok
  repeat' split at hok
  any_goals cases hok
  simp_all

/-- Witness for `config_validation` at a concrete valid kwargs set. -/
theorem config_validation_witness :
    (⟨20, [⟨1, [8]⟩], ⟨5, [1]⟩, false, 4, 7, 2⟩ : TrainConfig).step_per_epoch > 0 ∧
    (⟨20, [⟨1, [8]⟩], ⟨5, [1]⟩, false, 4, 7, 2⟩ : TrainConfig).max_epoch > 0 ∧
    (⟨some 20, true, some [⟨1, [8]⟩], none, true, some false, some 4, some 7, some 2, []⟩ :
      KwArgs).unknown = [] ∧
    (⟨20, [⟨1, [8]⟩], ⟨5, [1]⟩, false, 4, 7, 2⟩ : TrainConfig).nr_tower =
      (⟨some 20, true, some [⟨1, [8]⟩], none, true, some false, some 4, some 7, some 2, []⟩ :
        KwArgs).nr_tower.getD 1 :=
  config_validation
    ⟨some 20, true, some [⟨1, [8]⟩], none, true, some false, some 4, some 7, some 2, []⟩
    ⟨20, [⟨1, [8]⟩], ⟨5, [1]⟩, false, 4, 7, 2⟩ rfl

/-! ## Queue wiring (`get_model_inputs` lines 121-128, enqueue lines 130-133) -/

/-- Static shapes asserted on dequeued elements (`set_shape`, lines
123-127): the configured shape when `batched_model_input` is true,
otherwise the configured shape with the leading (batch) dimension dropped
(`as_list()[1:]`). -/
def get_model_input_shapes (batched_model_input : Bool)
    (shapes : List (List Nat)) : List (List Nat) :=
  shapes.map (fun s => if batched_model_input then s else s.drop 1)

/-- The enqueue operation built at lines 130-133. -/
inductive EnqueueOp where
  | enqueue (shapes : List (List Nat))
  | enqueueMany (shapes : List (List Nat))
deriving DecidableEq, Repr

/-- Embedding of lines 130-133: `enqueue(input_vars)` when
`batched_model_input`, else `enqueue_many(input_vars)`. -/
def build_enqueue_op (batched_model_input : Bool)
    (shapes : List (List Nat)) : EnqueueOp :=
  if batched_model_input then .enqueue shapes else .enqueueMany shapes

/-- Model of TensorFlow queue semantics for one execution of the enqueue
op: the number of queue elements pushed and each element's per-component
shapes.  `enqueue` pushes one element with the given component shapes;
`enqueue_many` requires a common leading dimension `B` across components
and pushes `B` elements whose component shapes drop it. -/
def pushedElements : EnqueueOp → Option (Nat × List (List Nat))
  | .enqueue shapes => some (1, shapes)
  | .enqueueMany shapes =>
    match shapes.head? with
    | none => none
    | some s0 =>
      match s0.head? with
      | none => none
      | some b =>
        if shapes.all (fun s => s.head? = some b) then
          some (b, shapes.map (fun s => s.drop 1))
        else none

/-- C8: the `batched_model_input` flag controls both queue ends
consistently.  When true, each execution pushes one pre-batched record and
the dequeue side asserts exactly the configured shapes, leading batch
dimension included.  When false, each execution pushes `B` single records
derived from one batch-shaped fetch (`enqueue_many` with shared leading
dimension `B`) and the dequeue side asserts the configured shapes with
that leading dimension dropped — in both modes the pushed element shapes
equal the asserted dequeue shapes. -/
theorem batched_flag_consistent (shapes : List (List Nat)) (B : Nat)
    (hne : shapes ≠ []) (hB : ∀ s ∈ shapes, s.head? = some B) :
    pushedElements (build_enqueue_op true shapes) =
      some (1, get_model_input_shapes true shapes) ∧
    get_model_input_shapes true shapes = shapes ∧
    pushedElements (build_enqueue_op false shapes) =
      some (B, get_model_input_shapes false shapes) ∧
    get_model_input_shapes false shapes = shapes.map (fun s => s.drop 1) := by
  refine ⟨?_, ?_, ?_, ?_⟩
  · simp [build_enqueue_op, pushedElements, get_model_input_shapes]
  · simp [get_model_input_shapes]
  · match hs : shapes with
    | [] => exact absurd rfl hne
    | s0 :: rest =>
      have h0 : s0.head? = some B := hB s0 (by simp)
      simp [build_enqueue_op, pushedElements, get_model_input_shapes, h0,
        List.all_eq_true, fun s hsm => hB s hsm]
      intro s hsm
      exact hB s (by simp [hsm])
  · simp [get_model_input_shapes]

/-- Witness for `batched_flag_consistent` on two input variables of batch
dimension 4. -/
theorem batched_flag_consistent_witness :
    pushedElements (build_enqueue_op true [[4, 3], [4]]) =
      some (1, get_model_input_shapes true [[4, 3], [4]]) ∧
    get_model_input_shapes true [[4, 3], [4]] = [[4, 3], [4]] ∧
    pushedElements (build_enqueue_op false [[4, 3], [4]]) =
      some (4, get_model_input_shapes false [[4, 3], [4]]) ∧
    get_model_input_shapes false [[4, 3], [4]] = [[4, 3], [4]].map (fun s => s.drop 1) :=
  batched_flag_consistent [[4, 3], [4]] 4 (by decide) (by decide)

/-! ## The fused step (lines 191-196)

One executed step issues a single `sess.run` over
`fetches = [train_op, cost_var] + output_vars + model_inputs` and slices
its result list: `cost = results[1]`,
`outputs = results[2:2+len(output_vars)]`,
`inputs = results[-len(model_inputs):]`.  The session is an evaluation
oracle `eval` assigning one value per fetch of that execution. -/

/-- One fused step: returns `(results, cost, outputs, inputs)` exactly as
sliced by lines 191-195 (Python slicing semantics: `[-0:]` is the whole
list). -/
def run_step {α V : Type} [Inhabited V] (eval : α → V) (train_op cost_var : α)
    (output_vars model_inputs : List α) : List V × V × List V × List V :=
  let fetches := [train_op, cost_var] ++ output_vars ++ model_inputs
  let results := fetches.map eval
  let cost := results.getD 1 default
  let outputs := (results.drop 2).take output_vars.length
  let inputs := if model_inputs.length = 0 then results
    else results.drop (results.length - model_inputs.length)
  (results, cost, outputs, inputs)

/-- C7: the fused execution fetches the apply op, the loss, the output
tensors and the consumed input record together, and the values handed to
`trigger_step` are that single execution's results at the right positions:
index 1 is the loss, the next `len(output_vars)` values are the outputs,
and the trailing `len(model_inputs)` values are the inputs the execution
consumed (the input list being nonempty). -/
theorem run_step_positions {α V : Type} [Inhabited V] (eval : α → V)
    (train_op cost_var : α) (output_vars model_inputs : List α)
    (hne : model_inputs ≠ []) :
    (run_step eval train_op cost_var output_vars model_inputs).1 =
      ([train_op, cost_var] ++ output_vars ++ model_inputs).map eval ∧
    (run_step eval train_op cost_var output_vars model_inputs).2.1 = eval cost_var ∧
    (run_step eval train_op cost_var output_vars model_inputs).2.2.1 =
      output_vars.map eval ∧
    (run_step eval train_op cost_var output_vars model_inputs).2.2.2 =
      model_inputs.map eval := by
  have hsplit : ([train_op, cost_var] ++ output_vars ++ model_inputs).map eval =
      ([eval train_op, eval cost_var] ++ output_vars.map eval) ++ model_inputs.map eval := by
    simp
  have hlen0 : ¬(model_inputs.length = 0) := by
    simpa [List.length_eq_zero] using hne
  refine ⟨rfl, rfl, ?_, ?_⟩
  · show ((([train_op, cost_var] ++ output_vars ++ model_inputs).map eval).drop 2).take
      output_vars.length = _
    rw [hsplit]
    rw [show ([eval train_op, eval cost_var] ++ output_vars.map eval) ++
        model_inputs.map eval =
      [eval train_op, eval cost_var] ++ (output_vars.map eval ++ model_inputs.map eval)
      from by simp]
    rw [show (2 : Nat) = ([eval train_op, eval cost_var] : List V).length from rfl,
      List.drop_left]
    rw [show output_vars.length = (output_vars.map eval).length from (List.length_map _ _).symm,
      List.take_left]
  · show (if model_inputs.length = 0 then _ else
      (([train_op, cost_var] ++ output_vars ++ model_inputs).map eval).drop
        ((([train_op, cost_var] ++ output_vars ++ model_inputs).map eval).length -
          model_inputs.length)) = _
    rw [if_neg hlen0, hsplit]
    have hdroplen :
        (([eval train_op, eval cost_var] ++ output_vars.map eval) ++
          model_inputs.map eval).length - model_inputs.length =
        ([eval train_op, eval cost_var] ++ output_vars.map eval).length := by
      simp
      omega
    rw [hdroplen, List.drop_left]

/-- Witness for `run_step_positions`: fetches are strings evaluated by
length; the sliced values land exactly on the loss, outputs and inputs. -/
theorem run_step_positions_witness :
    (run_step String.length "apply" "loss" ["o1"] ["in1", "in22"]).1 =
      (["apply", "loss"] ++ ["o1"] ++ ["in1", "in22"]).map String.length ∧
    (run_step String.length "apply" "loss" ["o1"] ["in1", "in22"]).2.1 =
      String.length "loss" ∧
    (run_step String.length "apply" "loss" ["o1"] ["in1", "in22"]).2.2.1 =
      ["o1"].map String.length ∧
    (run_step String.length "apply" "loss" ["o1"] ["in1", "in22"]).2.2.2 =
      ["in1", "in22"].map String.length :=
  run_step_positions String.length "apply" "loss" ["o1"] ["in1", "in22"] (by decide)

end Tensorpack
